import Mathlib

/-!
# Verification of the Codebase-copilot RAG core

Shallow embedding of the retrieval-augmented-generation core of the
repository: the chunker (`app/ingestion/parser.py`), the vector-index
search (`app/indexing/indexer.py`), the retriever
(`app/rag/retriever.py`), the generator (`app/rag/generator.py`) and the
indexing pipeline controller (`app/api/repos.py`), together with theorems
settling the frozen claims about them.

Embedding conventions:
* Python strings are Lean `String`s; Python character indexing/slicing is
  modelled on the code-point list `String.data`.
* Embedding vectors are `List ℚ` (exact rationals stand in for the float32
  vectors; the claims under study concern ordering and cardinality, not
  floating-point rounding).
* External collaborators (embedding backend, git clone, SQLite, the LLM)
  are parameters/oracles of the modelled functions.
* Nondeterministically generated fields (`uuid4` chunk ids, `sha256`
  content hashes, timestamps) are omitted from the chunk record; no claim
  under study depends on them.
-/

namespace App

/-! ## Python string primitives -/

/-- Python `str.lower()`, restricted to the ASCII mapping of
`Char.toLower` (every string occurring in the claims is ASCII). -/
def pyLower (s : String) : String := ⟨s.data.map Char.toLower⟩

/-- Python `needle in hay` substring containment. -/
def strContains (hay needle : String) : Bool :=
  (List.range (hay.data.length + 1)).any (fun i => needle.data.isPrefixOf (hay.data.drop i))

/-- Split a character list into the maximal runs of characters for which
`sep` is false, dropping empty runs.  `acc` holds the current run,
reversed. -/
def splitRuns (sep : Char → Bool) : List Char → List Char → List String
  | [], acc => if acc.isEmpty then [] else [⟨acc.reverse⟩]
  | c :: rest, acc =>
    if sep c then
      if acc.isEmpty then splitRuns sep rest []
      else (⟨acc.reverse⟩ : String) :: splitRuns sep rest []
    else splitRuns sep rest (c :: acc)

/-- Python `str.split()` with no arguments: split on whitespace runs,
no empty fields. -/
def pyWords (s : String) : List String := splitRuns Char.isWhitespace s.data []

/-- A `\w` word character as in Python's `re` (ASCII part: letters,
digits, underscore). -/
def isWordChar (c : Char) : Bool := c.isAlphanum || c = '_'

/-- Python `re.findall(r'\w+', s)`: the maximal runs of word
characters. -/
def findWords (s : String) : List String := splitRuns (fun c => !(isWordChar c)) s.data []

/-- A character at which Python `str.splitlines()` breaks a line
(`\r\n` is handled separately as a single break). -/
def isLineBreak (c : Char) : Bool :=
  c = '\n' || c = '\r' || c = '\x0b' || c = '\x0c' ||
  c = '\x1c' || c = '\x1d' || c = '\x1e' || c = '\x85' ||
  c = '\u2028' || c = '\u2029'

/-- Worker for `pySplitlines`; `acc` holds the current line, reversed. -/
def splitlinesAux : List Char → List Char → List String
  | [], acc => if acc.isEmpty then [] else [⟨acc.reverse⟩]
  | '\r' :: '\n' :: rest, acc => (⟨acc.reverse⟩ : String) :: splitlinesAux rest []
  | c :: rest, acc =>
    if isLineBreak c then (⟨acc.reverse⟩ : String) :: splitlinesAux rest []
    else splitlinesAux rest (c :: acc)

/-- Python `str.splitlines()` (no trailing empty line after a final
line break; the empty string yields no lines). -/
def pySplitlines (s : String) : List String := splitlinesAux s.data []

/-- Python `str.strip()`: drop leading and trailing whitespace. -/
def pyStrip (s : String) : String :=
  ⟨((s.data.dropWhile Char.isWhitespace).reverse.dropWhile Char.isWhitespace).reverse⟩

/-! ## Chunker — `app/ingestion/parser.py`, `chunk_content` -/

/-- A chunk record as built by `chunk_content` and stored/hydrated by the
rest of the pipeline.  The freshly generated `chunk_id` (uuid4) and the
`content_hash` (sha256 of the content) are omitted: they are opaque
generated identifiers no claim under study depends on.  `rerank_score`
models the transient `"_rerank_score"` dictionary key attached and removed
by the retriever's re-rank pass (`none` = key absent). -/
structure Chunk where
  file_path : String
  language : String
  start_line : Nat
  end_line : Nat
  content : String
  rerank_score : Option ℚ := none
deriving DecidableEq, Repr, Inhabited

/-- The text of the window of (up to) 50 lines starting at 0-based line
`i`: Python `"\n".join(lines[i:i+50])`. -/
def windowText (lines : List String) (i : Nat) : String :=
  String.intercalate "\n" ((lines.drop i).take 50)

/-- The chunking loop of `chunk_content`: a window of 50 lines
(`chunk_size_lines`) sliding by `50 - 5` lines (`overlap_lines = 5`);
a window whose stripped text is shorter than 10 characters is skipped,
the stride still advancing.  The `fuel` argument only bounds the number
of `while` iterations so the recursion is structural (and so computes in
the kernel); `chunk_content` passes `lines.length`, which suffices
because every iteration advances `i` by `50 - 5 ≥ 1`. -/
def chunkWindows (file_path language : String) (lines : List String) :
    Nat → Nat → List Chunk
  | 0, _ => []
  | fuel + 1, i =>
    if i < lines.length then
      if (pyStrip (windowText lines i)).length < 10 then
        chunkWindows file_path language lines fuel (i + (50 - 5))
      else
        { file_path := file_path, language := language,
          start_line := i + 1, end_line := min (i + 50) lines.length,
          content := windowText lines i } ::
          chunkWindows file_path language lines fuel (i + (50 - 5))
    else []

/-- `chunk_content(content, file_path, language)`: split into physical
lines and run the sliding-window loop from line 0. -/
def chunk_content (content file_path language : String) : List Chunk :=
  let lines := pySplitlines content
  if lines.isEmpty then [] else chunkWindows file_path language lines lines.length 0

/-! ## Generator — `app/rag/generator.py` -/

/-- A citation as assembled by `extract_citations`. -/
structure Citation where
  file_path : String
  start_line : Nat
  end_line : Nat
  snippet : String
deriving DecidableEq, Repr, Inhabited

/-- The snippet built for a citation: `chunk["content"][:200]`, plus an
`"..."` marker when the content was longer than 200 characters. -/
def mkSnippet (s : String) : String :=
  (⟨s.data.take 200⟩ : String) ++ (if 200 < s.data.length then "..." else "")

/-- The citation built from one chunk (file path, line range, bounded
snippet). -/
def citationOfChunk (c : Chunk) : Citation :=
  { file_path := c.file_path, start_line := c.start_line,
    end_line := c.end_line, snippet := mkSnippet c.content }

/-- The literal prefix of the citation pattern `\[Source (\d+)\]`. -/
def sourceMarker : List Char := "[Source ".data

/-- The numeric value of a run of ASCII digits. -/
def digitsToNat (ds : List Char) : Nat :=
  ds.foldl (fun a c => a * 10 + (c.toNat - 48)) 0

/-- Try to match `\[Source (\d+)\]` starting exactly at the head of `cs`,
returning the captured integer.  (Python's `\d` also admits non-ASCII
decimal digits; ASCII digits suffice for every input considered.) -/
def matchSourceAt (cs : List Char) : Option Nat :=
  if sourceMarker.isPrefixOf cs then
    let after := cs.drop sourceMarker.length
    let ds := after.takeWhile (fun c => c.isDigit)
    if ds ≠ [] ∧ (after.drop ds.length).head? = some ']' then some (digitsToNat ds)
    else none
  else none

/-- All integers captured by `re.findall(r"\[Source (\d+)\]", answer)`,
in order of occurrence.  Scanning every position is equivalent to
`findall`'s jump-past-the-match scanning because `'['` occurs only at
position 0 of a match, so no match can start inside another. -/
def scanSourceNums : List Char → List Nat
  | [] => []
  | c :: rest =>
    match matchSourceAt (c :: rest) with
    | some n => n :: scanSourceNums rest
    | none => scanSourceNums rest

/-- The source numbers cited in an answer, in scan order, duplicates
included. -/
def citationNums (answer : String) : List Nat := scanSourceNums answer.data

/-- `extract_citations(answer, chunks)`: collapse the matched numbers to a
set (`set(...)`, modelled by `dedup`), iterate them in ascending order
(`sorted(...)`, modelled by `insertionSort`), keep those in
`[1, len(chunks)]` and build the citation from the corresponding chunk. -/
def extract_citations (answer : String) (chunks : List Chunk) : List Citation :=
  let unique_sources := (citationNums answer).dedup
  ((List.insertionSort (· ≤ ·) unique_sources).filter
      (fun n => 1 ≤ n ∧ n ≤ chunks.length)).map
    (fun n => citationOfChunk (chunks.getD (n - 1) default))

/-- The fixed uncertainty-phrase list of `calculate_confidence`. -/
def uncertainty_phrases : List String :=
  ["i don't have", "not sure", "unclear", "might", "possibly",
   "i cannot find", "no information", "error generating answer"]

/-- `calculate_confidence(answer, citations, chunks)`, transcribed
branch-for-branch from the source (the `chunks` argument is unused there
too). -/
def calculate_confidence (answer : String) (citations : List Citation)
    (chunks : List Chunk) : String :=
  if citations.isEmpty then "low"
  else if answer.data.length < 50 then "low"
  else
    let citation_count := citations.length
    let words := (pyWords answer).length
    if 100 < words ∧ citation_count < 2 then "medium"
    else if uncertainty_phrases.any (fun p => strContains (pyLower answer) p) then "low"
    else if 2 ≤ citation_count then "high"
    else if citation_count = 1 then "medium"
    else "low"

/-! ## Retriever — `app/rag/retriever.py` -/

/-- `calculate_keyword_score(query, chunk_content)`: lowercase
word-boundary tokenization into sets, then
`|query-words ∩ content-words| / |query-words|` (0 for a query with no
word). -/
def calculate_keyword_score (query chunk_content : String) : ℚ :=
  let query_words := (findWords (pyLower query)).dedup
  let content_words := (findWords (pyLower chunk_content)).dedup
  if query_words.isEmpty then 0
  else ((query_words.filter (fun w => w ∈ content_words)).length : ℚ) / (query_words.length : ℚ)

/-- Follows the spec's words, for comparison with
`calculate_keyword_score`: "tokenize the query and the chunk content into
lowercase word sets; score = |query-words ∩ chunk-words| / |query-words|
(0 when the query has no recognizable words)". -/
def specKeywordScore (query content : String) : ℚ :=
  let qs := (findWords (pyLower query)).toFinset
  let cs := (findWords (pyLower content)).toFinset
  if qs = ∅ then 0 else ((qs ∩ cs).card : ℚ) / (qs.card : ℚ)

/-- The sort key of the re-rank pass: `x.get("_rerank_score", 0)`. -/
def rerankKey (c : Chunk) : ℚ := c.rerank_score.getD 0

/-- "`a` sorts no later than `b`" for the descending re-rank sort:
Python's `sorted(..., key=score, reverse=True)` is a stable descending
sort, modelled by `insertionSort` with this relation. -/
def rerankRel (a b : Chunk) : Prop := rerankKey b ≤ rerankKey a

instance : DecidableRel rerankRel := fun a b =>
  inferInstanceAs (Decidable (rerankKey b ≤ rerankKey a))

instance : IsTotal Chunk rerankRel := ⟨fun a b => le_total (rerankKey b) (rerankKey a)⟩

instance : IsTrans Chunk rerankRel := ⟨fun _ _ _ h1 h2 => le_trans h2 h1⟩

/-- `rerank_chunks(query, chunks)`: attach the keyword score under the
transient `"_rerank_score"` key, sort stably by it descending, then strip
the key again. -/
def rerank_chunks (query : String) (chunks : List Chunk) : List Chunk :=
  if chunks.isEmpty then chunks
  else
    let scored := chunks.map
      (fun c => { c with rerank_score := some (calculate_keyword_score query c.content) })
    let reranked := List.insertionSort rerankRel scored
    reranked.map (fun c => { c with rerank_score := none })

/-! ## Vector index — `app/indexing/indexer.py` -/

/-- The two on-disk artifacts `search_index` loads for a repository:
`{repo_id}.faiss` (the vectors, by position) and `{repo_id}_mapping.pkl`
(the position → chunk-id list).  `none` models a missing file. -/
structure RepoStore where
  indexFile : Option (List (List ℚ))
  mappingFile : Option (List String)
deriving DecidableEq, Repr

/-- Squared L2 distance, the metric of `faiss.IndexFlatL2`. -/
def sqDist (q v : List ℚ) : ℚ := (List.zipWith (fun a b => (a - b) ^ 2) q v).sum

/-- Ascending-distance order on (distance, position) pairs. -/
def distPosRel (a b : ℚ × ℕ) : Prop := a.1 ≤ b.1

instance : DecidableRel distPosRel := fun a b => inferInstanceAs (Decidable (a.1 ≤ b.1))

instance : IsTotal (ℚ × ℕ) distPosRel := ⟨fun a b => le_total a.1 b.1⟩

instance : IsTrans (ℚ × ℕ) distPosRel := ⟨fun _ _ _ h1 h2 => le_trans h1 h2⟩

/-- `index.search(query, k)` of `faiss.IndexFlatL2`: positions of the `k`
nearest stored vectors by ascending (squared) L2 distance; when `k`
exceeds the number of stored vectors the result is padded with `-1` up to
length `k`, exactly as FAISS pads missing neighbours. -/
def faissSearch (vecs : List (List ℚ)) (q : List ℚ) (k : Nat) : List Int :=
  let scored := (List.range vecs.length).map (fun i => (sqDist q (vecs.getD i []), i))
  let sorted := List.insertionSort distPosRel scored
  ((sorted.map (fun p => (p.2 : Int))).take k) ++ List.replicate (k - vecs.length) (-1)

/-- Python list indexing `l[i]` with its negative-index semantics:
`l[-j]` is `l[len l - j]`; an index outside `[-len l, len l)` raises
`IndexError`, modelled by `none`. -/
def pyIdx (l : List α) (i : Int) : Option α :=
  if 0 ≤ i then l.get? i.toNat
  else if -(l.length : Int) ≤ i then l.get? (l.length - (-i).toNat)
  else none

/-- The list comprehension `[chunk_ids[idx] for idx in ...]`: `none` when
any single indexing raises. -/
def pyGetList (chunk_ids : List String) : List Int → Option (List String)
  | [] => some []
  | i :: rest =>
    match pyIdx chunk_ids i, pyGetList chunk_ids rest with
    | some v, some vs => some (v :: vs)
    | _, _ => none

/-- `search_index(repo_id, query_embedding, top_k)`: error when either
file is missing; otherwise run the FAISS search and keep
`chunk_ids[idx]` for every returned `idx` with `idx < len(chunk_ids)` —
no cardinality check between index and mapping is performed. -/
def search_index (st : RepoStore) (query_embedding : List ℚ) (top_k : Nat) :
    Except String (List String) :=
  match st.indexFile, st.mappingFile with
  | some vecs, some chunk_ids =>
    let idxs := faissSearch vecs query_embedding top_k
    match pyGetList chunk_ids (idxs.filter (fun i => i < (chunk_ids.length : Int))) with
    | some res => Except.ok res
    | none => Except.error "IndexError"
  | _, _ => Except.error "Index not found for repository"

/-- `retrieve_relevant_chunks(repo_id, query, top_k, use_reranking)`.
The query embedding (external embedding backend) is the oracle `embed`;
chunk hydration (`get_chunk_by_id`, SQLite) is the oracle `db`, `none`
modelling an id that no longer resolves (silently dropped). -/
def retrieve_relevant_chunks (embed : String → List ℚ) (st : RepoStore)
    (db : String → Option Chunk) (query : String) (top_k : Nat)
    (use_reranking : Bool) : Except String (List Chunk) :=
  let query_embedding := embed query
  let retrieve_k := if use_reranking then top_k * 2 else top_k
  match search_index st query_embedding retrieve_k with
  | Except.error e => Except.error e
  | Except.ok chunk_ids =>
    let chunks := chunk_ids.filterMap db
    Except.ok (if use_reranking ∧ top_k < chunks.length
      then (rerank_chunks query chunks).take top_k
      else chunks)

/-! ## Indexing pipeline controller — `app/api/repos.py`, `index_repository_task` -/

/-- The repository indexing states of `app/storage/models.py`. -/
inductive RepoStatus
  | queued
  | indexing
  | ready
  | error
deriving DecidableEq, Repr

/-- The observable per-repository state the pipeline touches: the status
row (with its error message), the persisted chunk set (`chunks` table,
replaced transactionally by `save_chunks`), and the two index files
written by `build_faiss_index`. -/
structure SysState where
  status : RepoStatus
  errorMessage : Option String
  dbChunks : List Chunk
  indexFile : Option (List (List ℚ))
  mappingFile : Option (List String)
deriving DecidableEq, Repr

/-- The points at which one statement of `index_repository_task` (or one
of the two file writes inside `build_faiss_index`) can raise. -/
inductive Stage
  | setIndexing
  | clone
  | parse
  | embed
  | writeIndex
  | writeMapping
  | saveChunks
  | setReady
deriving DecidableEq, Repr

/-- One indexing run: which stage (if any) raises and with what message,
what the parse stage produced, and what the build stage would write.
`newVectors`/`newIds` are what `build_faiss_index` computes from the
embedded chunks; the persisted chunks drop the embedding vectors. -/
structure PipelineRun where
  failAt : Option Stage
  failMsg : String
  parsedChunks : List Chunk
  newVectors : List (List ℚ)
  newIds : List String
deriving DecidableEq, Repr

/-- The `except` handler of `index_repository_task`:
`update_repo_status(repo_id, ERROR, str(e))`. -/
def failState (s : SysState) (msg : String) : SysState :=
  { s with status := RepoStatus.error, errorMessage := some msg }

/-- `index_repository_task`, statement by statement.  Each stage either
raises (jumping to the `except` handler, which records `error` with the
exception's message) or applies its effect.  `build_faiss_index` writes
the index file to its final path and then the mapping file — there is no
temporary-plus-rename step — and `save_chunks` replaces the repository's
chunk rows in one transaction.  The zero-chunk check raises
`ValueError("No code chunks extracted from repository")`. -/
def index_repository_task (r : PipelineRun) (s : SysState) : SysState :=
  if r.failAt = some Stage.setIndexing then failState s r.failMsg else
  let s1 := { s with status := RepoStatus.indexing, errorMessage := none }
  if r.failAt = some Stage.clone then failState s1 r.failMsg else
  if r.failAt = some Stage.parse then failState s1 r.failMsg else
  if r.parsedChunks = [] then failState s1 "No code chunks extracted from repository" else
  if r.failAt = some Stage.embed then failState s1 r.failMsg else
  if r.failAt = some Stage.writeIndex then failState s1 r.failMsg else
  let s2 := { s1 with indexFile := some r.newVectors }
  if r.failAt = some Stage.writeMapping then failState s2 r.failMsg else
  let s3 := { s2 with mappingFile := some r.newIds }
  if r.failAt = some Stage.saveChunks then failState s3 r.failMsg else
  let s4 := { s3 with dbChunks := r.parsedChunks }
  if r.failAt = some Stage.setReady then failState s4 r.failMsg else
  { s4 with status := RepoStatus.ready, errorMessage := none }

/-! ## Chunker lemmas -/

/-- Every chunk emitted by the window loop from position `i` starts at or
after line `i + 1`, has `start_line ≤ end_line ≤ lines.length`, its
content is the window text at `start_line - 1`, and its stripped content
is at least 10 characters long. -/
lemma chunkWindows_mem_aux (fp lg : String) (lines : List String) :
    ∀ fuel i, ∀ c ∈ chunkWindows fp lg lines fuel i,
      i + 1 ≤ c.start_line ∧ c.start_line ≤ c.end_line ∧ c.end_line ≤ lines.length ∧
        10 ≤ (pyStrip c.content).length := by
  intro fuel
  induction fuel with
  | zero =>
    intro i c hc
    simp [chunkWindows] at hc
  | succ fuel ih =>
    intro i c hc
    rw [chunkWindows] at hc
    by_cases h : i < lines.length
    · rw [if_pos h] at hc
      by_cases hskip : (pyStrip (windowText lines i)).length < 10
      · rw [if_pos hskip] at hc
        obtain ⟨h1, h2, h3, h4⟩ := ih (i + (50 - 5)) c hc
        exact ⟨by omega, h2, h3, h4⟩
      · rw [if_neg hskip] at hc
        rcases List.mem_cons.mp hc with rfl | hmem
        · refine ⟨?_, ?_, ?_, ?_⟩ <;> dsimp only <;> omega
        · obtain ⟨h1, h2, h3, h4⟩ := ih (i + (50 - 5)) c hmem
          exact ⟨by omega, h2, h3, h4⟩
    · rw [if_neg h] at hc
      simp at hc

/-- The chunks emitted by the window loop have non-decreasing
`start_line`. -/
lemma chunkWindows_pairwise (fp lg : String) (lines : List String) :
    ∀ fuel i,
      (chunkWindows fp lg lines fuel i).Pairwise
        (fun a b => a.start_line ≤ b.start_line) := by
  intro fuel
  induction fuel with
  | zero =>
    intro i
    simp [chunkWindows]
  | succ fuel ih =>
    intro i
    rw [chunkWindows]
    by_cases h : i < lines.length
    · rw [if_pos h]
      by_cases hskip : (pyStrip (windowText lines i)).length < 10
      · rw [if_pos hskip]
        exact ih (i + (50 - 5))
      · rw [if_neg hskip]
        refine List.Pairwise.cons ?_ (ih (i + (50 - 5)))
        intro d hd
        have hds := (chunkWindows_mem_aux fp lg lines fuel (i + (50 - 5)) d hd).1
        dsimp only
        omega
    · rw [if_neg h]
      exact List.Pairwise.nil

/-- If the window loop (with fuel left) starting at a position
`j < lines.length` emits nothing, the window at `j` itself was skipped as
too short. -/
lemma chunkWindows_nil_skip (fp lg : String) (lines : List String) (fuel j : Nat)
    (hnil : chunkWindows fp lg lines (fuel + 1) j = []) (hj : j < lines.length) :
    (pyStrip (windowText lines j)).length < 10 := by
  rw [chunkWindows, if_pos hj] at hnil
  by_cases hskip : (pyStrip (windowText lines j)).length < 10
  · exact hskip
  · rw [if_neg hskip] at hnil
    exact absurd hnil (List.cons_ne_nil _ _)

/-- The last chunk the window loop emits either ends at the last line of
the file, or some later window (at or after the last chunk's start) was
skipped as too short.  `lines.length ≤ i + fuel` is the fuel-sufficiency
invariant maintained by `chunk_content`'s initial call. -/
lemma chunkWindows_getLast (fp lg : String) (lines : List String) :
    ∀ fuel i, lines.length ≤ i + fuel →
      ∀ c, (chunkWindows fp lg lines fuel i).getLast? = some c →
        c.end_line = lines.length ∨
          ∃ j, c.start_line ≤ j ∧ j < lines.length ∧
            (pyStrip (windowText lines j)).length < 10 := by
  intro fuel
  induction fuel with
  | zero =>
    intro i hle c hc
    simp [chunkWindows] at hc
  | succ fuel ih =>
    intro i hle c hc
    rw [chunkWindows] at hc
    by_cases h : i < lines.length
    · rw [if_pos h] at hc
      by_cases hskip : (pyStrip (windowText lines i)).length < 10
      · rw [if_pos hskip] at hc
        exact ih (i + (50 - 5)) (by omega) c hc
      · rw [if_neg hskip] at hc
        cases hrec : chunkWindows fp lg lines fuel (i + (50 - 5)) with
        | nil =>
          rw [hrec] at hc
          simp only [List.getLast?_singleton, Option.some.injEq] at hc
          subst hc
          by_cases h45 : i + (50 - 5) < lines.length
          · have hfuel : lines.length ≤ i + (50 - 5) + fuel := by omega
            cases fuel with
            | zero => omega
            | succ g =>
              exact Or.inr ⟨i + (50 - 5), by dsimp only; omega, h45,
                chunkWindows_nil_skip fp lg lines g _ hrec h45⟩
          · left
            show min (i + 50) lines.length = lines.length
            omega
        | cons d ds =>
          rw [hrec] at hc
          rw [List.getLast?_cons_cons] at hc
          exact ih (i + (50 - 5)) (by omega) c (by rw [hrec]; exact hc)
    · rw [if_neg h] at hc
      simp at hc

/-- C9: every chunk emitted by `chunk_content` has content whose
whitespace-trimmed length is at least 10 characters; shorter windows are
never emitted. -/
theorem claim_C9_min_chunk_length (content fp lg : String) (c : Chunk)
    (hc : c ∈ chunk_content content fp lg) : 10 ≤ (pyStrip c.content).length := by
  unfold chunk_content at hc
  by_cases hnil : (pySplitlines content).isEmpty
  · rw [if_pos hnil] at hc
    simp at hc
  · rw [if_neg hnil] at hc
    exact (chunkWindows_mem_aux fp lg (pySplitlines content)
      (pySplitlines content).length 0 c hc).2.2.2

/-- Witness for C9 at a concrete file. -/
theorem claim_C9_witness :
    10 ≤ (pyStrip (Chunk.mk "a.py" "python" 1 2
      "line one text here\nline two text here" none).content).length :=
  claim_C9_min_chunk_length "line one text here\nline two text here" "a.py" "python" _
    (by decide)

/-- C6: for all non-empty file text, the chunk list of `chunk_content`
has non-decreasing `start_line`, `start_line ≤ end_line` everywhere, and
its last chunk ends at the file's last line unless a later (tail) window
was skipped as shorter than the 10-character minimum. -/
theorem claim_C6_chunk_coverage (content fp lg : String) (h : content ≠ "") :
    (chunk_content content fp lg).Pairwise (fun a b => a.start_line ≤ b.start_line) ∧
    (∀ c ∈ chunk_content content fp lg, c.start_line ≤ c.end_line) ∧
    (∀ c, (chunk_content content fp lg).getLast? = some c →
      c.end_line = (pySplitlines content).length ∨
        ∃ j, c.start_line ≤ j ∧ j < (pySplitlines content).length ∧
          (pyStrip (windowText (pySplitlines content) j)).length < 10) := by
  unfold chunk_content
  by_cases hnil : (pySplitlines content).isEmpty
  · rw [if_pos hnil]
    refine ⟨List.Pairwise.nil, by simp, by simp⟩
  · rw [if_neg hnil]
    refine ⟨chunkWindows_pairwise fp lg _ (pySplitlines content).length 0,
      fun c hc => (chunkWindows_mem_aux fp lg _ (pySplitlines content).length 0
        c hc).2.1,
      fun c hc => chunkWindows_getLast fp lg _ (pySplitlines content).length 0
        (by omega) c hc⟩

/-! ## Vector-index search (C2, C3) -/

/-- Every index position returned by the FAISS search is either the `-1`
padding or a valid position into the stored vectors. -/
lemma faissSearch_mem (vecs : List (List ℚ)) (q : List ℚ) (k : Nat) (x : Int)
    (hx : x ∈ faissSearch vecs q k) :
    x = -1 ∨ (0 ≤ x ∧ x < (vecs.length : Int)) := by
  unfold faissSearch at hx
  rcases List.mem_append.mp hx with h | h
  · right
    obtain ⟨p, hp, rfl⟩ := List.mem_map.mp (List.mem_of_mem_take h)
    have hp' := (List.mem_insertionSort distPosRel).mp hp
    obtain ⟨i, hi, rfl⟩ := List.mem_map.mp hp'
    have hilt := List.mem_range.mp hi
    exact ⟨Int.ofNat_nonneg i, by exact_mod_cast hilt⟩
  · left
    exact List.eq_of_mem_replicate h

/-- Python indexing succeeds for every index the search-result filter
lets through, provided the mapping list is non-empty. -/
lemma pyIdx_isSome (ids : List String) (i : Int) (hne : ids ≠ [])
    (hlt : i < (ids.length : Int)) (hge : i = -1 ∨ 0 ≤ i) :
    ∃ v, pyIdx ids i = some v := by
  have hlen : 0 < ids.length := List.length_pos.mpr hne
  rcases hge with rfl | hge
  · unfold pyIdx
    rw [if_neg (by omega), if_pos (by omega)]
    have hidx : ids.length - ((-(-1 : Int)).toNat) < ids.length := by
      norm_num
      omega
    exact ⟨ids.get ⟨_, hidx⟩, List.get?_eq_get hidx⟩
  · unfold pyIdx
    rw [if_pos hge]
    have hidx : i.toNat < ids.length := by omega
    exact ⟨ids.get ⟨_, hidx⟩, List.get?_eq_get hidx⟩

/-- The modelled list comprehension succeeds when every individual
indexing does. -/
lemma pyGetList_total (ids : List String) :
    ∀ l : List Int, (∀ i ∈ l, ∃ v, pyIdx ids i = some v) →
      ∃ res, pyGetList ids l = some res := by
  intro l
  induction l with
  | nil => exact fun _ => ⟨[], rfl⟩
  | cons i rest ih =>
    intro h
    obtain ⟨v, hv⟩ := h i (List.mem_cons_self i rest)
    obtain ⟨vs, hvs⟩ := ih (fun j hj => h j (List.mem_cons_of_mem _ hj))
    exact ⟨v :: vs, by simp [pyGetList, hv, hvs]⟩

unseal Rat.add Rat.mul Rat.inv Rat.sub in
/-- C2 counterexample: a stored index with 2 vectors and a mapping with 1
chunk id (cardinality mismatch).  `search_index` does not fail: it
silently returns the truncated result `["a"]`. -/
theorem claim_C2_counterexample :
    search_index ⟨some [[(0 : ℚ)], [1]], some ["a"]⟩ [0] 2 = Except.ok ["a"] ∧
    ([[(0 : ℚ)], [1]] : List (List ℚ)).length ≠ (["a"] : List String).length := by
  exact ⟨by rfl, by decide⟩

/-- C2 (amended): `search_index` performs no cardinality check between
index and mapping — whenever both files exist and the mapping is
non-empty it returns a normal `ok` result, silently dropping index
positions at or beyond the mapping length. -/
theorem claim_C2_search_no_cardinality_check (vecs : List (List ℚ)) (ids : List String)
    (q : List ℚ) (k : Nat) (h : ids ≠ []) :
    ∃ res, search_index ⟨some vecs, some ids⟩ q k = Except.ok res := by
  have hall : ∀ i ∈ (faissSearch vecs q k).filter (fun i => i < (ids.length : Int)),
      ∃ v, pyIdx ids i = some v := by
    intro i hi
    have hmem := List.mem_filter.mp hi
    exact pyIdx_isSome ids i h (of_decide_eq_true hmem.2)
      ((faissSearch_mem vecs q k i hmem.1).imp_right And.left)
  obtain ⟨res, hres⟩ := pyGetList_total ids _ hall
  refine ⟨res, ?_⟩
  have hun : search_index ⟨some vecs, some ids⟩ q k =
      match pyGetList ids
          ((faissSearch vecs q k).filter (fun i => i < (ids.length : Int))) with
      | some r => Except.ok r
      | none => Except.error "IndexError" := rfl
  rw [hun, hres]

/-- Witness for the amended C2 at the counterexample's store. -/
theorem claim_C2_witness :
    ∃ res, search_index ⟨some [[(0 : ℚ)], [1]], some ["a"]⟩ [0] 2 = Except.ok res :=
  claim_C2_search_no_cardinality_check [[(0 : ℚ)], [1]] ["a"] [0] 2 (by decide)

unseal Rat.add Rat.mul Rat.inv Rat.sub in
/-- C3: evaluation of `search_index` at the failing input.  With one
stored vector and `k = 2`, FAISS pads the missing neighbour with `-1`;
the guard `idx < len(chunk_ids)` lets `-1` through and Python's negative
indexing aliases it to the LAST chunk id, so the search returns the
stored id twice instead of once.  (NotFound on a missing index behaves as
claimed.) -/
theorem claim_C3_search_padding_eval :
    search_index ⟨some [[(0 : ℚ)]], some ["a"]⟩ [0] 2 = Except.ok ["a", "a"] ∧
    search_index ⟨none, none⟩ [0] 2 = Except.error "Index not found for repository" ∧
    (["a", "a"] : List String) ≠ ["a"] := by
  exact ⟨by rfl, by rfl, by decide⟩

/-! ## Indexing pipeline (C5, C8) -/

unseal Rat.add Rat.mul Rat.inv Rat.sub in
/-- C5 counterexample: an indexing run over a `ready` repository that
fails at chunk persistence (after the index build).  The final state is
`error`, but the previously written vector index and mapping have already
been replaced in place while the old chunks remain — the prior ready
state's index did not stay reachable, and a mixed partial state is
observable. -/
theorem claim_C5_counterexample :
    index_repository_task
        ⟨some Stage.saveChunks, "db write failed",
          [⟨"n.py", "py", 1, 2, "new chunk text", none⟩], [[2]], ["new"]⟩
        ⟨RepoStatus.ready, none, [⟨"o.py", "py", 1, 2, "old chunk text", none⟩],
          some [[1]], some ["old"]⟩ =
      ⟨RepoStatus.error, some "db write failed",
        [⟨"o.py", "py", 1, 2, "old chunk text", none⟩], some [[2]], some ["new"]⟩ ∧
    (some [[(2 : ℚ)]] : Option (List (List ℚ))) ≠ some [[1]] := by
  exact ⟨by decide, by decide⟩

/-- C5 (amended): build-then-swap holds only for failures before the
index write: a run that fails at status update, clone, parse or
embedding (or aborts on zero chunks) leaves the prior chunks, index and
mapping untouched and ends in `error`; once the index write has happened
the prior index is already overwritten in place. -/
theorem claim_C5_early_failure_preserved (r : PipelineRun) (s : SysState)
    (h : r.failAt = some Stage.setIndexing ∨ r.failAt = some Stage.clone ∨
      r.failAt = some Stage.parse ∨ r.failAt = some Stage.embed ∨
      r.parsedChunks = []) :
    (index_repository_task r s).dbChunks = s.dbChunks ∧
    (index_repository_task r s).indexFile = s.indexFile ∧
    (index_repository_task r s).mappingFile = s.mappingFile ∧
    (index_repository_task r s).status = RepoStatus.error := by
  rcases h with h | h | h | h | h
  · simp [index_repository_task, failState, h]
  · simp [index_repository_task, failState, h]
  · simp [index_repository_task, failState, h]
  · by_cases hp : r.parsedChunks = [] <;> simp [index_repository_task, failState, h, hp]
  · rcases hf : r.failAt with _ | st
    · simp [index_repository_task, failState, h, hf]
    · cases st <;> simp [index_repository_task, failState, h, hf]

/-- Witness for the amended C5: a run failing at clone leaves a concrete
prior state untouched. -/
theorem claim_C5_witness :
    (index_repository_task ⟨some Stage.clone, "clone failed", [], [[2]], ["new"]⟩
        ⟨RepoStatus.ready, none, [⟨"o.py", "py", 1, 2, "old chunk text", none⟩],
          some [[1]], some ["old"]⟩).dbChunks =
      [⟨"o.py", "py", 1, 2, "old chunk text", none⟩] ∧
    (index_repository_task ⟨some Stage.clone, "clone failed", [], [[2]], ["new"]⟩
        ⟨RepoStatus.ready, none, [⟨"o.py", "py", 1, 2, "old chunk text", none⟩],
          some [[1]], some ["old"]⟩).indexFile = some [[1]] ∧
    (index_repository_task ⟨some Stage.clone, "clone failed", [], [[2]], ["new"]⟩
        ⟨RepoStatus.ready, none, [⟨"o.py", "py", 1, 2, "old chunk text", none⟩],
          some [[1]], some ["old"]⟩).mappingFile = some ["old"] ∧
    (index_repository_task ⟨some Stage.clone, "clone failed", [], [[2]], ["new"]⟩
        ⟨RepoStatus.ready, none, [⟨"o.py", "py", 1, 2, "old chunk text", none⟩],
          some [[1]], some ["old"]⟩).status = RepoStatus.error :=
  claim_C5_early_failure_preserved _ _ (Or.inr (Or.inl rfl))

/-- C8: every pipeline run ends in `ready` or `error`; zero chunks is a
hard `error` with the ValueError's message; any raising stage ends the
run in `error`, recording the exception's message (unless the zero-chunk
abort fired first); a run with no failure and chunks ends `ready`.  The
task itself never propagates the exception (it is a total function into a
final state). -/
theorem claim_C8_terminal_states (r : PipelineRun) (s : SysState) :
    ((index_repository_task r s).status = RepoStatus.ready ∨
      (index_repository_task r s).status = RepoStatus.error) ∧
    (r.failAt = none → r.parsedChunks ≠ [] →
      (index_repository_task r s).status = RepoStatus.ready) ∧
    (r.failAt = none → r.parsedChunks = [] →
      (index_repository_task r s).status = RepoStatus.error ∧
        (index_repository_task r s).errorMessage =
          some "No code chunks extracted from repository") ∧
    (∀ st, r.failAt = some st → (index_repository_task r s).status = RepoStatus.error) ∧
    (∀ st, r.failAt = some st →
      (st = Stage.setIndexing ∨ st = Stage.clone ∨ st = Stage.parse ∨
        r.parsedChunks ≠ []) →
      (index_repository_task r s).errorMessage = some r.failMsg) := by
  rcases hf : r.failAt with _ | st
  · by_cases hp : r.parsedChunks = [] <;> simp [index_repository_task, failState, hf, hp]
  · by_cases hp : r.parsedChunks = [] <;> cases st <;>
      simp [index_repository_task, failState, hf, hp]

/-! ## Re-ranking (C7, C10) -/

/-- Stripping an absent transient score is the identity. -/
lemma stripScore_eq_self (c : Chunk) (h : c.rerank_score = none) :
    ({ c with rerank_score := none } : Chunk) = c := by
  cases c
  subst h
  rfl

/-- Attaching the transient score and stripping it again is the identity
on chunks without the scratch field. -/
lemma map_strip_add (query : String) :
    ∀ l : List Chunk, (∀ c ∈ l, c.rerank_score = none) →
      ((l.map (fun c =>
          { c with rerank_score := some (calculate_keyword_score query c.content) })).map
        (fun c => { c with rerank_score := none })) = l := by
  intro l
  induction l with
  | nil => exact fun _ => rfl
  | cons a t ih =>
    intro h
    have ha : ({ a with rerank_score := none } : Chunk) = a :=
      stripScore_eq_self a (h a (List.mem_cons_self a t))
    simp only [List.map_cons]
    rw [ih (fun c hc => h c (List.mem_cons_of_mem _ hc))]
    exact congrArg (fun x => x :: t) ha

/-- C10: on chunk lists without the scratch field, re-ranking returns a
permutation of its input (nothing dropped or duplicated), and no returned
chunk carries the transient `_rerank_score` field; every other field is
untouched because the returned chunks ARE the input chunks. -/
theorem claim_C10_rerank_permutation (query : String) (chunks : List Chunk)
    (hne : chunks ≠ [])
    (h0 : ∀ c ∈ chunks, c.rerank_score = none) :
    (rerank_chunks query chunks).Perm chunks ∧
    ∀ c ∈ rerank_chunks query chunks, c.rerank_score = none := by
  have hie : chunks.isEmpty = false := by
    cases chunks with
    | nil => exact absurd rfl hne
    | cons a l => rfl
  have hcalc : rerank_chunks query chunks =
      (List.insertionSort rerankRel (chunks.map (fun c =>
        { c with rerank_score := some (calculate_keyword_score query c.content) }))).map
        (fun c => { c with rerank_score := none }) := by
    unfold rerank_chunks
    rw [if_neg (by simp [hie])]
  constructor
  · have hperm := (List.perm_insertionSort rerankRel (chunks.map (fun c =>
      { c with rerank_score := some (calculate_keyword_score query c.content) }))).map
      (fun c => ({ c with rerank_score := none } : Chunk))
    rw [hcalc]
    refine List.Perm.trans hperm ?_
    rw [map_strip_add query chunks h0]
  · rw [hcalc]
    intro c hc
    obtain ⟨x, _, rfl⟩ := List.mem_map.mp hc
    rfl

/-- Witness for C10 at a concrete two-chunk list. -/
theorem claim_C10_witness :
    (rerank_chunks "alpha" [⟨"a.py", "py", 1, 2, "beta", none⟩,
        ⟨"b.py", "py", 3, 4, "alpha", none⟩]).Perm
      [⟨"a.py", "py", 1, 2, "beta", none⟩, ⟨"b.py", "py", 3, 4, "alpha", none⟩] ∧
    ∀ c ∈ rerank_chunks "alpha" [⟨"a.py", "py", 1, 2, "beta", none⟩,
        ⟨"b.py", "py", 3, 4, "alpha", none⟩], c.rerank_score = none :=
  claim_C10_rerank_permutation "alpha" _ (by decide) (by decide)

/-- Filtering one score class through an ordered insert: the element goes
to the front of its class (the skipped prefix has strictly greater
keys). -/
lemma orderedInsert_filter_rerank (v : ℚ) (a : Chunk) :
    ∀ l : List Chunk,
      (List.orderedInsert rerankRel a l).filter (fun x => rerankKey x = v) =
        if rerankKey a = v then a :: l.filter (fun x => rerankKey x = v)
        else l.filter (fun x => rerankKey x = v) := by
  intro l
  induction l with
  | nil =>
    by_cases hav : rerankKey a = v <;> simp [List.orderedInsert, hav]
  | cons b t ih =>
    by_cases hab : rerankRel a b
    · rw [List.orderedInsert, if_pos hab]
      by_cases hav : rerankKey a = v <;> by_cases hbv : rerankKey b = v <;>
        simp [List.filter_cons, hav, hbv]
    · rw [List.orderedInsert, if_neg hab]
      have hlt : rerankKey a < rerankKey b := lt_of_not_le hab
      by_cases hav : rerankKey a = v
      · have hbv : rerankKey b ≠ v := by
          rw [← hav]
          exact ne_of_gt hlt
        simp [List.filter_cons, hav, hbv, ih]
      · simp [List.filter_cons, hav, ih]

/-- The stable descending sort preserves each score class in order:
Python's `sorted(..., reverse=True)` stability, at the level of the
modelled `insertionSort`. -/
lemma insertionSort_filter_rerank (v : ℚ) :
    ∀ l : List Chunk,
      (List.insertionSort rerankRel l).filter (fun x => rerankKey x = v) =
        l.filter (fun x => rerankKey x = v) := by
  intro l
  induction l with
  | nil => rfl
  | cons a t ih =>
    rw [List.insertionSort, orderedInsert_filter_rerank, ih, List.filter_cons]
    by_cases hav : rerankKey a = v <;> simp [hav]

/-- Every element of the scored-and-sorted list carries the keyword score
of its own content in the transient field. -/
lemma mem_sorted_scored (query : String) (chunks : List Chunk) (x : Chunk)
    (hx : x ∈ List.insertionSort rerankRel (chunks.map (fun c =>
      { c with rerank_score := some (calculate_keyword_score query c.content) }))) :
    x.rerank_score = some (calculate_keyword_score query x.content) := by
  have hx' := (List.mem_insertionSort rerankRel).mp hx
  obtain ⟨c, _, rfl⟩ := List.mem_map.mp hx'
  rfl

/-- The re-ranked list is sorted by descending keyword score. -/
lemma rerank_chunks_sorted (query : String) (chunks : List Chunk) :
    (rerank_chunks query chunks).Sorted
      (fun a b => calculate_keyword_score query b.content ≤
        calculate_keyword_score query a.content) := by
  unfold rerank_chunks
  by_cases hie : chunks.isEmpty
  · rw [if_pos hie]
    cases chunks with
    | nil => exact List.sorted_nil
    | cons a l => exact absurd hie (by simp)
  · rw [if_neg hie]
    have hsorted : (List.insertionSort rerankRel (chunks.map (fun c =>
        { c with rerank_score := some (calculate_keyword_score query c.content) }))).Sorted
        rerankRel := List.sorted_insertionSort rerankRel _
    have hpair : (List.insertionSort rerankRel (chunks.map (fun c =>
        { c with rerank_score := some (calculate_keyword_score query c.content) }))).Pairwise
        (fun a b => calculate_keyword_score query b.content ≤
          calculate_keyword_score query a.content) := by
      refine List.Pairwise.imp_of_mem ?_ hsorted
      intro a b ha hb hab
      have hA := mem_sorted_scored query chunks a ha
      have hB := mem_sorted_scored query chunks b hb
      have hab' : rerankKey b ≤ rerankKey a := hab
      rw [rerankKey, rerankKey, hA, hB] at hab'
      simpa using hab'
    exact List.Pairwise.map _ (fun a b h => h) hpair

/-- Re-ranking is stable: each keyword-score class appears in the output
in the same relative order as in the input (for inputs without the
scratch field). -/
lemma rerank_filter_stable (query : String) (chunks : List Chunk)
    (h0 : ∀ c ∈ chunks, c.rerank_score = none) (v : ℚ) :
    (rerank_chunks query chunks).filter
        (fun c => calculate_keyword_score query c.content = v) =
      chunks.filter (fun c => calculate_keyword_score query c.content = v) := by
  by_cases hie : chunks.isEmpty
  · unfold rerank_chunks
    rw [if_pos hie]
  · unfold rerank_chunks
    rw [if_neg hie]
    have hcompS : ((fun c : Chunk => decide (calculate_keyword_score query c.content = v)) ∘
        (fun c : Chunk => ({ c with rerank_score := none } : Chunk))) =
        (fun c : Chunk => decide (calculate_keyword_score query c.content = v)) :=
      funext fun c => rfl
    have hcompA : ((fun c : Chunk => decide (calculate_keyword_score query c.content = v)) ∘
        (fun c : Chunk => ({ c with
          rerank_score := some (calculate_keyword_score query c.content) } : Chunk))) =
        (fun c : Chunk => decide (calculate_keyword_score query c.content = v)) :=
      funext fun c => rfl
    have hS2K : (List.insertionSort rerankRel (chunks.map (fun c =>
        { c with rerank_score := some (calculate_keyword_score query c.content) }))).filter
          (fun c => calculate_keyword_score query c.content = v) =
        (List.insertionSort rerankRel (chunks.map (fun c =>
        { c with rerank_score := some (calculate_keyword_score query c.content) }))).filter
          (fun c => rerankKey c = v) := by
      refine List.filter_congr ?_
      intro x hx
      have hA := mem_sorted_scored query chunks x hx
      have hk : rerankKey x = calculate_keyword_score query x.content := by
        rw [rerankKey, hA]
        rfl
      simp [hk]
    have hK2S : ((chunks.map (fun c =>
        { c with rerank_score := some (calculate_keyword_score query c.content) })).filter
          (fun c => rerankKey c = v)) =
        ((chunks.map (fun c =>
        { c with rerank_score := some (calculate_keyword_score query c.content) })).filter
          (fun c => calculate_keyword_score query c.content = v)) := by
      refine List.filter_congr ?_
      intro x hx
      obtain ⟨c, _, rfl⟩ := List.mem_map.mp hx
      have hk : rerankKey ({ c with
          rerank_score := some (calculate_keyword_score query c.content) } : Chunk) =
          calculate_keyword_score query c.content := rfl
      simp [hk]
    calc ((List.insertionSort rerankRel (chunks.map (fun c =>
          { c with rerank_score := some (calculate_keyword_score query c.content) }))).map
          (fun c => { c with rerank_score := none })).filter
          (fun c => calculate_keyword_score query c.content = v)
        = ((List.insertionSort rerankRel (chunks.map (fun c =>
            { c with rerank_score := some (calculate_keyword_score query c.content) }))).filter
            (fun c => calculate_keyword_score query c.content = v)).map
            (fun c => { c with rerank_score := none }) := by
          rw [List.filter_map, hcompS]
      _ = ((chunks.map (fun c =>
            { c with rerank_score := some (calculate_keyword_score query c.content) })).filter
            (fun c => calculate_keyword_score query c.content = v)).map
            (fun c => { c with rerank_score := none }) := by
          rw [hS2K, insertionSort_filter_rerank, hK2S]
      _ = (((chunks.filter (fun c => calculate_keyword_score query c.content = v)).map
            (fun c => { c with
              rerank_score := some (calculate_keyword_score query c.content) })).map
            (fun c => { c with rerank_score := none })) := by
          rw [List.filter_map, hcompA]
      _ = chunks.filter (fun c => calculate_keyword_score query c.content = v) :=
          map_strip_add query _ (fun c hc => h0 c (List.mem_of_mem_filter hc))

/-- The source's keyword score coincides with the spec's formula over
word sets: `|query-words ∩ chunk-words| / |query-words|`, and 0 for a
query with no words. -/
lemma keyword_score_eq_spec (a b : String) :
    calculate_keyword_score a b = specKeywordScore a b := by
  unfold calculate_keyword_score specKeywordScore
  have hfq : (findWords (pyLower a)).toFinset = (findWords (pyLower a)).dedup.toFinset := by
    ext w
    simp [List.mem_toFinset, List.mem_dedup]
  by_cases hq : (findWords (pyLower a)).dedup.isEmpty
  · have hqnil : (findWords (pyLower a)).dedup = [] := by
      simpa [List.isEmpty_iff] using hq
    have hfq' : (findWords (pyLower a)).toFinset = ∅ := by
      rw [hfq, hqnil]
      rfl
    simp [hq, hfq']
  · have hqnil : (findWords (pyLower a)).dedup ≠ [] := by
      simpa [List.isEmpty_iff] using hq
    have hfq' : (findWords (pyLower a)).toFinset ≠ ∅ := by
      rw [hfq]
      simpa [List.toFinset_eq_empty_iff] using hqnil
    rw [if_neg (by simpa [List.isEmpty_iff] using hq), if_neg hfq']
    have hnodup : (findWords (pyLower a)).dedup.Nodup := List.nodup_dedup _
    have hcard : ((findWords (pyLower a)).toFinset.card : ℚ) =
        ((findWords (pyLower a)).dedup.length : ℚ) := by
      norm_cast
    have hfilter : (((findWords (pyLower a)).toFinset ∩
        (findWords (pyLower b)).toFinset).card : ℚ) =
        (((findWords (pyLower a)).dedup.filter
          (fun w => w ∈ (findWords (pyLower b)).dedup)).length : ℚ) := by
      norm_cast
    rw [hcard, hfilter]

/-- C7: with re-ranking enabled and more hydrated candidates than `topK`,
`retrieve_relevant_chunks` returns exactly the stable descending
keyword-score sort of the hydrated chunks truncated to `topK`; the result
is sorted by the score `|query-words ∩ chunk-words| / |query-words|`
(which coincides with the spec's set formula), ties keep the prior
(distance-based) relative order, and never more than `topK` chunks are
returned. -/
theorem claim_C7_rerank (embed : String → List ℚ) (st : RepoStore)
    (db : String → Option Chunk) (query : String) (top_k : Nat)
    (ids : List String) (chunks : List Chunk)
    (hids : search_index st (embed query) (top_k * 2) = Except.ok ids)
    (hch : chunks = ids.filterMap db)
    (hlen : top_k < chunks.length)
    (h0 : ∀ c ∈ chunks, c.rerank_score = none) :
    retrieve_relevant_chunks embed st db query top_k true =
      Except.ok ((rerank_chunks query chunks).take top_k) ∧
    (∀ res, retrieve_relevant_chunks embed st db query top_k true = Except.ok res →
      res.length ≤ top_k) ∧
    ((rerank_chunks query chunks).take top_k).Sorted
      (fun a b => calculate_keyword_score query b.content ≤
        calculate_keyword_score query a.content) ∧
    (∀ v : ℚ, (rerank_chunks query chunks).filter
        (fun c => calculate_keyword_score query c.content = v) =
      chunks.filter (fun c => calculate_keyword_score query c.content = v)) ∧
    (∀ a b : String, calculate_keyword_score a b = specKeywordScore a b) := by
  have hretr : retrieve_relevant_chunks embed st db query top_k true =
      Except.ok ((rerank_chunks query chunks).take top_k) := by
    dsimp only [retrieve_relevant_chunks]
    rw [if_pos rfl]
    rw [hids]
    dsimp only
    rw [← hch]
    rw [if_pos ⟨rfl, hlen⟩]
  refine ⟨hretr, ?_, ?_, ?_, keyword_score_eq_spec⟩
  · intro res hres
    rw [hretr] at hres
    cases hres
    rw [List.length_take]
    exact min_le_left _ _
  · exact List.Pairwise.sublist (List.take_sublist _ _) (rerank_chunks_sorted query chunks)
  · intro v
    exact rerank_filter_stable query chunks h0 v

/-! ## Confidence scoring (C4) -/

set_option maxRecDepth 40000 in
/-- C4 counterexample: an answer with one citation, length ≥ 50,
containing the uncertainty phrase "might", whose word count exceeds 100:
`calculate_confidence` returns "medium", not "low", because the source
checks the word-count rule before the uncertainty-phrase rule. -/
theorem claim_C4_counterexample :
    calculate_confidence (String.intercalate " " (List.replicate 101 "might"))
        [⟨"a.py", 1, 8, "s"⟩] [] = "medium" ∧
    ([(⟨"a.py", 1, 8, "s"⟩ : Citation)] ≠ []) ∧
    50 ≤ (String.intercalate " " (List.replicate 101 "might")).data.length ∧
    "might" ∈ uncertainty_phrases ∧
    strContains (pyLower (String.intercalate " " (List.replicate 101 "might")))
      "might" = true ∧
    ("medium" : String) ≠ "low" := by
  refine ⟨by decide, by decide, by decide, by decide, by decide, by decide⟩

/-- C4 (amended): an answer with at least one citation, length ≥ 50 and
an uncertainty phrase gets confidence "low" provided the word-count rule
(word count > 100 and citation count < 2), which the source checks first,
does not fire. -/
theorem claim_C4_uncertainty_low (answer : String) (citations : List Citation)
    (chunks : List Chunk) (h1 : citations ≠ [])
    (h2 : 50 ≤ answer.data.length)
    (h3 : ∃ p ∈ uncertainty_phrases, strContains (pyLower answer) p = true)
    (h4 : ¬(100 < (pyWords answer).length ∧ citations.length < 2)) :
    calculate_confidence answer citations chunks = "low" := by
  have e1 : citations.isEmpty = false := by
    cases citations with
    | nil => exact absurd rfl h1
    | cons a l => rfl
  have e2 : ¬ answer.data.length < 50 := by omega
  have e4 : uncertainty_phrases.any (fun p => strContains (pyLower answer) p) = true := by
    obtain ⟨p, hp, hc⟩ := h3
    exact List.any_eq_true.mpr ⟨p, hp, hc⟩
  simp [calculate_confidence, e1, e2, e4, h4]

/-- Witness for the amended C4 at a concrete answer. -/
theorem claim_C4_witness :
    calculate_confidence "Not sure about this; the code is unclear in many places okay!"
      [⟨"a.py", 1, 8, "s"⟩] [] = "low" :=
  claim_C4_uncertainty_low _ _ _ (by decide) (by decide)
    ⟨"not sure", by decide, by decide⟩ (by decide)

/-- Witness for C6 at a concrete two-line file. -/
theorem claim_C6_witness :
    (chunk_content "line one text here\nline two text here" "a.py" "python").Pairwise
      (fun a b => a.start_line ≤ b.start_line) ∧
    (∀ c ∈ chunk_content "line one text here\nline two text here" "a.py" "python",
      c.start_line ≤ c.end_line) ∧
    (∀ c, (chunk_content "line one text here\nline two text here" "a.py"
        "python").getLast? = some c →
      c.end_line = (pySplitlines "line one text here\nline two text here").length ∨
        ∃ j, c.start_line ≤ j ∧
          j < (pySplitlines "line one text here\nline two text here").length ∧
          (pyStrip (windowText (pySplitlines "line one text here\nline two text here")
            j)).length < 10) :=
  claim_C6_chunk_coverage "line one text here\nline two text here" "a.py" "python"
    (by decide)

unseal Rat.add Rat.mul Rat.inv Rat.sub in
/-- Witness for C7 at a concrete two-vector index: the query "alpha"
re-ranks the keyword-matching chunk first and the result is truncated to
`topK = 1`. -/
theorem claim_C7_witness :
    retrieve_relevant_chunks (fun _ => [(0 : ℚ)])
        ⟨some [[(0 : ℚ)], [1]], some ["a", "b"]⟩
        (fun id => if id = "a" then some ⟨"a.py", "py", 1, 2, "alpha code", none⟩
          else if id = "b" then some ⟨"b.py", "py", 3, 4, "beta", none⟩ else none)
        "alpha" 1 true =
      Except.ok ((rerank_chunks "alpha" [⟨"a.py", "py", 1, 2, "alpha code", none⟩,
        ⟨"b.py", "py", 3, 4, "beta", none⟩]).take 1) :=
  (claim_C7_rerank (fun _ => [(0 : ℚ)]) ⟨some [[(0 : ℚ)], [1]], some ["a", "b"]⟩
    (fun id => if id = "a" then some ⟨"a.py", "py", 1, 2, "alpha code", none⟩
      else if id = "b" then some ⟨"b.py", "py", 3, 4, "beta", none⟩ else none)
    "alpha" 1 ["a", "b"]
    [⟨"a.py", "py", 1, 2, "alpha code", none⟩, ⟨"b.py", "py", 3, 4, "beta", none⟩]
    (by rfl) (by rfl) (by decide) (by decide)).1

/-! ## Citation extraction (C1) -/

/-- C1: citation extraction collapses duplicate `[Source N]` markers to a
set, discards integers outside `[1, len(chunks)]`, emits citations in
strictly ascending source order, each built from the corresponding
retrieved chunk, with a snippet of at most 200 content characters plus an
ellipsis marker exactly when truncated (so never longer than 203). -/
theorem claim_C1_citation_extraction (answer : String) (chunks : List Chunk) :
    List.Sorted (· < ·)
      ((List.insertionSort (· ≤ ·) (citationNums answer).dedup).filter
        (fun n => 1 ≤ n ∧ n ≤ chunks.length)) ∧
    (∀ n, n ∈ (List.insertionSort (· ≤ ·) (citationNums answer).dedup).filter
        (fun n => 1 ≤ n ∧ n ≤ chunks.length) ↔
      (n ∈ citationNums answer ∧ 1 ≤ n ∧ n ≤ chunks.length)) ∧
    extract_citations answer chunks =
      ((List.insertionSort (· ≤ ·) (citationNums answer).dedup).filter
        (fun n => 1 ≤ n ∧ n ≤ chunks.length)).map
        (fun n => citationOfChunk (chunks.getD (n - 1) default)) ∧
    (∀ cit ∈ extract_citations answer chunks,
      ∃ i, ∃ hi : i < chunks.length, cit = citationOfChunk (chunks.get ⟨i, hi⟩)) ∧
    (∀ s : String, (mkSnippet s).length ≤ 203 ∧
      (s.data.length ≤ 200 → mkSnippet s = s)) := by
  have hext : extract_citations answer chunks =
      ((List.insertionSort (· ≤ ·) (citationNums answer).dedup).filter
        (fun n => 1 ≤ n ∧ n ≤ chunks.length)).map
        (fun n => citationOfChunk (chunks.getD (n - 1) default)) := rfl
  refine ⟨?_, ?_, hext, ?_, ?_⟩
  · have hnd : (List.insertionSort (· ≤ ·) (citationNums answer).dedup).Nodup :=
      (List.perm_insertionSort (· ≤ ·) (citationNums answer).dedup).symm.nodup
        (List.nodup_dedup _)
    have hle : (List.insertionSort (· ≤ ·) (citationNums answer).dedup).Sorted (· ≤ ·) :=
      List.sorted_insertionSort (· ≤ ·) _
    exact (hle.lt_of_le hnd).filter _
  · intro n
    simp only [List.mem_filter, List.mem_insertionSort, List.mem_dedup,
      decide_eq_true_eq, and_assoc]
  · intro cit hcit
    rw [hext] at hcit
    obtain ⟨n, hn, rfl⟩ := List.mem_map.mp hcit
    have hbound := of_decide_eq_true (List.mem_filter.mp hn).2
    have hi : n - 1 < chunks.length := by omega
    refine ⟨n - 1, hi, ?_⟩
    have hget : chunks.get? (n - 1) = some (chunks.get ⟨n - 1, hi⟩) :=
      List.get?_eq_get hi
    have hgetD : chunks.getD (n - 1) default = chunks.get ⟨n - 1, hi⟩ := by
      rw [List.getD_eq_getElem?_getD, ← List.get?_eq_getElem?, hget]
      rfl
    rw [hgetD]
  · intro s
    constructor
    · unfold mkSnippet
      by_cases h2 : 200 < s.data.length
      · rw [if_pos h2, String.length_append]
        have ht : (String.mk (s.data.take 200)).length = (s.data.take 200).length := rfl
        have h3 : ("..." : String).length = 3 := rfl
        rw [ht, h3, List.length_take]
        omega
      · rw [if_neg h2, String.length_append]
        have ht : (String.mk (s.data.take 200)).length = (s.data.take 200).length := rfl
        have h0 : ("" : String).length = 0 := rfl
        rw [ht, h0, List.length_take]
        omega
    · intro hle
      unfold mkSnippet
      rw [if_neg (by omega)]
      rw [List.take_of_length_le hle]
      cases s with
      | mk l =>
        show (⟨l⟩ : String) ++ "" = (⟨l⟩ : String)
        rw [show ((⟨l⟩ : String) ++ "") = (⟨l ++ []⟩ : String) from rfl, List.append_nil]

end App
